import Mathlib

/-!
Verification of the recommendation pipeline of the gift-recommendation
service (chat endpoint, guided-search endpoint, feedback endpoint and the
session-context cache), as a shallow embedding of the TypeScript source.

Conventions of the embedding:
* JS objects become structures; absent (`undefined`) fields become `Option`.
* JS `x || d` on strings/numbers is modelled by `jsStrOr` / `jsNatOr`
  (the empty string and `0` are falsy in JS).
* The vector index is modelled as a map from collection names to a
  relevance-ordered pool of hits; a search filters the pool by the scalar
  filter and takes the requested limit ("the index honours its filter").
* `Math.random()` is modelled by an arbitrary function `rand : Nat → Nat`;
  the Fisher-Yates loop at index `i` uses `rand i % (i+1)` as the random
  index `j ∈ [0, i]`, so every outcome of the shuffle is the value at some
  `rand`.
* Fallible calls (database, providers) are modelled as `Except` values
  supplied by an environment structure; a thrown JS exception is the
  `Except.error` case.
-/

namespace GiftRec

/-- Payload of a vector-index point, with the fields the pipeline reads
(the brand used by the diversity merge and the numeric price used by the
scalar filter). A missing brand is the empty string, which is falsy in JS. -/
structure Payload where
  brand : String
  price : Nat
deriving DecidableEq

/-- Search hit returned by the vector index: a point id with its payload. -/
structure Hit where
  id : Nat
  payload : Payload
deriving DecidableEq

/-- Product record built by the route from a hit via
`{ id: item.id, ...item.payload }`. -/
structure Product where
  id : Nat
  brand : String
  price : Nat
deriving DecidableEq

/-- Spread of a hit into a product: `{ id: item.id, ...item.payload }`. -/
def toProduct (h : Hit) : Product :=
  { id := h.id, brand := h.payload.brand, price := h.payload.price }

/-- Effective brand of a product: `(product as any).brand || 'Unknown'`
(in JS both a missing brand and an empty-string brand fall back). -/
def effBrand (p : Product) : String :=
  if p.brand = "" then "Unknown" else p.brand

/-- Insertion into the per-brand map of `interleaveByBrand`
(`brandMap.get(b)?.push(p)` on an existing key, `brandMap.set(b, [])`
followed by a push on a fresh key): append to the first group with the
given key, or add a new singleton group at the end. -/
def addToGroups (b : String) (p : Product) :
    List (String × List Product) → List (String × List Product)
  | [] => [(b, [p])]
  | g :: gs => if g.1 = b then (g.1, g.2 ++ [p]) :: gs else g :: addToGroups b p gs

/-- Grouping of a list of products by effective brand in first-occurrence
order, as the JS `Map` built by `interleaveByBrand` holds it. -/
def brandGroups (l : List Product) : List (String × List Product) :=
  l.foldl (fun acc p => addToGroups (effBrand p) p acc) []

/-- Longest group length: `brands.forEach(b => maxLen = Math.max(maxLen, b.length))`. -/
def maxGroupLen (gs : List (List Product)) : Nat :=
  gs.foldl (fun m g => max m g.length) 0

/-- Round-robin interleave of `interleaveByBrand`: group by brand, then for
each round `i < maxLen` take the `i`-th item of every brand group that
still has one. -/
def interleaveByBrand (l : List Product) : List Product :=
  let gs := (brandGroups l).map Prod.snd
  (List.range (maxGroupLen gs)).flatMap (fun i => gs.filterMap (fun g => g[i]?))

/-- Swap of two positions of a list; identity when either index is out of
range (in the Fisher-Yates loop both are always in range). -/
def listSwap {α : Type} (l : List α) (i j : Nat) : List α :=
  match l[i]?, l[j]? with
  | some a, some b => (l.set i b).set j a
  | _, _ => l

/-- Fisher-Yates loop of `getDiverseProducts`, counting `i` down from
`topPool.length - 1` to `1` and swapping position `i` with position
`rand i % (i+1)` (the model of `Math.floor(Math.random() * (i + 1))`). -/
def fyAux {α : Type} (rand : Nat → Nat) : Nat → List α → List α
  | 0, l => l
  | i + 1, l => fyAux rand i (listSwap l (i + 1) (rand (i + 1) % (i + 2)))

/-- Fisher-Yates shuffle of `getDiverseProducts` for one outcome `rand` of
the random source. -/
def fisherYates {α : Type} (rand : Nat → Nat) (l : List α) : List α :=
  fyAux rand (l.length - 1) l

/-- New-brand partition of the pool: products whose effective brand is not
in `seenBrands` (the `newBrandItems` array), in pool order. -/
def newBrandItems (seenBrands : List String) (items : List Hit) : List Product :=
  (items.map toProduct).filter (fun p => !(seenBrands.contains (effBrand p)))

/-- Old-brand partition of the pool (the `oldBrandItems` array), in pool order. -/
def oldBrandItems (seenBrands : List String) (items : List Hit) : List Product :=
  (items.map toProduct).filter (fun p => seenBrands.contains (effBrand p))

/-- Sampling pool of `getDiverseProducts` before the shuffle: interleave
the two partitions separately, concatenate new brands first, then take the
top `min(finalPool.length, limit * 2)` candidates. -/
def diversePool (seenBrands : List String) (items : List Hit) (limit : Nat) :
    List Product :=
  let finalPool :=
    interleaveByBrand (newBrandItems seenBrands items) ++
      interleaveByBrand (oldBrandItems seenBrands items)
  finalPool.take (min finalPool.length (limit * 2))

/-- Diversity merge `getDiverseProducts(items, limit)` of the chat route
(closing over `seenBrands` from the request and `Math.random` via `rand`):
empty pool short-circuits, otherwise shuffle the sampling pool and
truncate to `limit`. -/
def getDiverseProducts (rand : Nat → Nat) (seenBrands : List String)
    (items : List Hit) (limit : Nat) : List Product :=
  if items.length = 0 then []
  else (fisherYates rand (diversePool seenBrands items limit)).take limit

/-- Number of distinct effective brands in a list of products. -/
def distinctBrandCount (l : List Product) : Nat :=
  (l.map effBrand).toFinset.card

/-- Well-formedness of a per-brand group list as the JS `Map` guarantees
it: every group is non-empty and holds only products of its key brand, and
the keys are pairwise distinct. -/
def GoodGroups (gs : List (String × List Product)) : Prop :=
  (∀ pr ∈ gs, pr.2 ≠ [] ∧ ∀ p ∈ pr.2, effBrand p = pr.1) ∧
  (gs.map Prod.fst).Nodup

/-! Scalar filter and vector search. -/

/-- Price-range condition of the scalar filter:
`{ key: "price_numeric", range: { gte, lte } }`. -/
structure PriceRange where
  gte : Nat
  lte : Nat
deriving DecidableEq

/-- Scalar filter of the primary search: an optional `must` price range and
an optional `must_not` / `has_id` exclusion list. -/
structure SearchFilter where
  must : Option PriceRange
  must_not : Option (List Nat)
deriving DecidableEq

/-- JS `o || d` for an optional number (`0` is falsy). -/
def jsNatOr (o : Option Nat) (d : Nat) : Nat :=
  match o with
  | some v => if v = 0 then d else v
  | none => d

/-- JS `o || d` for an optional string (the empty string is falsy). -/
def jsStrOr (o : Option String) (d : String) : String :=
  match o with
  | some v => if v = "" then d else v
  | none => d

/-- Filter object built by the chat route: a `must` price range when either
bound is defined (`gte: price_min || 0, lte: price_max || 1000000`) and a
`must_not: [{ has_id: excludeIds }]` entry when `excludeIds` is non-empty. -/
def buildSearchFilter (price_min price_max : Option Nat) (excludeIds : List Nat) :
    SearchFilter :=
  { must :=
      if price_min.isSome || price_max.isSome then
        some { gte := jsNatOr price_min 0, lte := jsNatOr price_max 1000000 }
      else none,
    must_not := if excludeIds.length > 0 then some excludeIds else none }

/-- JS `Object.keys(filter).length > 0` test on the filter object. -/
def filterHasKeys (f : SearchFilter) : Bool :=
  f.must.isSome || f.must_not.isSome

/-- Condition under which a hit satisfies the scalar filter: inside the
`must` price range and outside the `must_not` id exclusion. -/
def hitMatches (f : SearchFilter) (h : Hit) : Bool :=
  (match f.must with
   | some r => decide (r.gte ≤ h.payload.price) && decide (h.payload.price ≤ r.lte)
   | none => true) &&
  (match f.must_not with
   | some ids => !(ids.contains h.id)
   | none => true)

/-- Vector search against one collection pool, modelling the index as
honouring its filter: keep the hits matching the filter (all of them when
`undefined` is passed), truncated to the search limit. -/
def searchIndex (pool : List Hit) (f : Option SearchFilter) (limit : Nat) :
    List Hit :=
  match f with
  | none => pool.take limit
  | some f => (pool.filter (hitMatches f)).take limit

/-- Value passed as the search filter:
`Object.keys(filter).length > 0 ? filter : undefined`. -/
def effectiveFilter (f : SearchFilter) : Option SearchFilter :=
  if filterHasKeys f then some f else none

/-- One search call of the chat route against the vector index `db`
(a map from collection names to relevance-ordered pools). -/
def runSearch (db : String → List Hit) (coll : String) (f : Option SearchFilter)
    (limit : Nat) : List Hit :=
  searchIndex (db coll) f limit

/-- Primary search with the catalog fallback of the chat route: search the
target collection with limit 60; if that returns zero results and the
target is not `products`, repeat the identical search against `products`.
The second component records which collections were queried, in order. -/
def primarySearch (db : String → List Hit) (f : Option SearchFilter)
    (target : String) : List Hit × List String :=
  let r := runSearch db target f 60
  if r.length = 0 ∧ target ≠ "products" then
    (runSearch db "products" f 60, [target, "products"])
  else
    (r, [target])

/-! Intent extraction. -/

/-- Preferences object of the intent JSON, with the two numeric bounds the
route destructures. -/
structure IntentPrefs where
  price_min : Option Nat
  price_max : Option Nat
deriving DecidableEq

/-- Shape of a parsed intent reply: each field the route reads may be
absent. -/
structure IntentJson where
  search_query : Option String
  target_collection : Option String
  preferences : Option IntentPrefs
deriving DecidableEq

/-- Reply content of the intent completion call as the route sees it:
`content || '{}'` turns a null or empty content into the empty object;
a non-JSON content makes `JSON.parse` throw; otherwise a JSON object is
parsed. -/
inductive CompletionContent where
  | empty
  | nonJson (raw : String)
  | jsonObj (j : IntentJson)
deriving DecidableEq

/-- Intent values the route computes from the parsed reply. -/
structure Intent where
  searchQuery : String
  targetCollection : String
  price_min : Option Nat
  price_max : Option Nat
deriving DecidableEq

/-- Field defaulting applied to a parsed intent object:
`intentData.search_query || message`, `intentData.target_collection ||
'products'`, and `const { price_min, price_max } = intentData.preferences || {}`. -/
def intentOfJson (message : String) (j : IntentJson) : Intent :=
  { searchQuery := jsStrOr j.search_query message,
    targetCollection := jsStrOr j.target_collection "products",
    price_min := match j.preferences with | some p => p.price_min | none => none,
    price_max := match j.preferences with | some p => p.price_max | none => none }

/-- Intent-parsing step of the chat route:
`JSON.parse(intentCompletion.choices[0].message.content || '{}')` followed
by the field defaulting. A non-JSON reply makes `JSON.parse` throw, which
the route's only handler turns into a terminal error event. -/
def extractIntent (message : String) (c : CompletionContent) : Except String Intent :=
  match c with
  | .nonJson _ => .error "Unexpected token in JSON"
  | .empty => .ok (intentOfJson message ⟨none, none, none⟩)
  | .jsonObj j => .ok (intentOfJson message j)

/-! Session-context cache (Redis with durable-store fallback). -/

/-- One conversation turn pair `{ user, assistant }`. -/
structure Turn where
  user : String
  assistant : String
deriving DecidableEq

/-- One `updateSessionContext` call on a cached history: push the new turn,
then keep the last 10 (`history.slice(-10)`). -/
def updateStep (h : List Turn) (t : Turn) : List Turn :=
  let h2 := h ++ [t]
  if h2.length > 10 then h2.drop (h2.length - 10) else h2

/-- Cache entry produced by running `updateSessionContext` once per
completed turn, oldest first, starting from an absent entry (`[]`). -/
def cacheAfterTurns (turns : List Turn) : List Turn :=
  turns.foldl updateStep []

/-- Durable reconstruction of `getSessionContext`: the messages of the
session other than the in-flight one, most-recent-first with `LIMIT 7`,
then reversed to oldest-first (`turns` holds the completed turns oldest
first; the in-flight message is already excluded by `id != $2`). -/
def dbReconstruct (turns : List Turn) : List Turn :=
  (turns.reverse.take 7).reverse

/-- Read path of `getSessionContext`: return the cached entry when the
fast tier holds one, otherwise reconstruct from the durable store. -/
def getSessionContext (cache : Option (List Turn)) (turns : List Turn) : List Turn :=
  match cache with
  | some h => h
  | none => dbReconstruct turns

/-! Feedback endpoint. -/

/-- Body of a feedback request; every field may be absent. -/
structure FeedbackBody where
  sessionId : Option String
  messageId : Option String
  productId : Option String
  rating : Option Nat
  reason : Option String
deriving DecidableEq

/-- JS falsiness of an optional string (`!x`): absent or empty. -/
def jsFalsyStr (o : Option String) : Bool :=
  match o with
  | none => true
  | some s => s = ""

/-- JS falsiness of an optional number (`!x`): absent or zero. -/
def jsFalsyNat (o : Option Nat) : Bool :=
  match o with
  | none => true
  | some n => n = 0

/-- Response of the feedback endpoint. -/
inductive FeedbackResponse where
  | badRequest
  | ok
  | serverError
deriving DecidableEq

/-- Feedback POST handler: reject with a 400 when session id, product id or
rating is falsy, otherwise attempt the single durable insert (`db` is its
outcome). The second component counts insert statements issued. -/
def feedbackPost (db : Except String Unit) (b : FeedbackBody) :
    FeedbackResponse × Nat :=
  if jsFalsyStr b.sessionId || jsFalsyStr b.productId || jsFalsyNat b.rating then
    (.badRequest, 0)
  else
    match db with
    | .ok _ => (.ok, 1)
    | .error _ => (.serverError, 1)

/-! Guided-search budget mapping. -/

/-- Enumerated budget buckets offered by the guided-search UI
(`BUDGET_OPTIONS` in the guided-mode config). -/
def BUDGET_OPTIONS : List String :=
  ["Under 1k", "2k", "2.5k", "3k", "5k", "6k", "6k+"]

/-- Price range the guided-search endpoint computes from the budget value:
`min`/`max` start at `0`/`1000000` and are narrowed by the matching
(case-sensitive) branch of the `if`/`else if` chain. -/
def budgetRange (budget : String) : Nat × Nat :=
  if budget = "under 1k" then (0, 1000)
  else if budget = "2k" then (1000, 2000)
  else if budget = "2.5k" then (2000, 2500)
  else if budget = "3k" then (2500, 3000)
  else if budget = "5k" then (3000, 5000)
  else if budget = "6k" then (5000, 6000)
  else if budget = "6k+" then (6000, 1000000)
  else (0, 1000000)

/-- Price condition the guided-search endpoint pushes onto its filter when
a (truthy) budget is supplied. -/
def guidedFilterMust (budget : Option String) : Option PriceRange :=
  match budget with
  | some b =>
      if b = "" then none
      else some { gte := (budgetRange b).1, lte := (budgetRange b).2 }
  | none => none

/-! Streamed turn orchestrator (the chat POST handler). -/

/-- Body of a chat-turn request; `message` and `sessionId` may be absent. -/
structure ChatRequest where
  message : Option String
  sessionId : Option String
  isReload : Bool
  excludeIds : List Nat
  seenBrands : List String

/-- Payload of the terminal `result` event (session and message ids are
fresh uuids, kept out of the model). -/
structure ResultData where
  products : List Product
  toastdProducts : List Product
  assistantResponse : String
deriving DecidableEq

/-- Events of the NDJSON stream. -/
inductive StreamEvent where
  | status (msg : String)
  | result (d : ResultData)
  | error (msg : String)
deriving DecidableEq

/-- Test for a `status` event. -/
def isStatus : StreamEvent → Bool
  | .status _ => true
  | _ => false

/-- Test for a terminal (`result` or `error`) event. -/
def isTerminal : StreamEvent → Bool
  | .status _ => false
  | _ => true

/-- Outcomes of the external calls one turn makes, one field per await
point; an `Except.error` is a thrown exception. -/
structure TurnEnv where
  rand : Nat → Nat
  selectSession : Except String Bool
  insertSession : Except String Unit
  insertMessage : Except String Unit
  cache : Option (List Turn)
  selectHistory : Except String (List Turn)
  intentCompletion : Except String CompletionContent
  embedding : Except String Unit
  collections : String → List Hit
  searchOk : Except String Unit
  fallbackSearchOk : Except String Unit
  toastd : Except String (List Product)
  toastdFallbackOk : Except String Unit
  narrative : Except String (Option String)
  updateMessage : Except String Unit

/-- Prefix a status message onto the outcome of the rest of the try block. -/
def withStatus (s : String) (r : List String × Except String ResultData) :
    List String × Except String ResultData :=
  (s :: r.1, r.2)

/-- Session management step: a missing (falsy) session id, or an unknown
one, creates a session named `message.substring(0, 50)` — evaluating that
expression throws a TypeError when `message` is absent. -/
def sessionStep (env : TurnEnv) (req : ChatRequest) : Except String Unit :=
  if jsFalsyStr req.sessionId then
    match req.message with
    | none => .error "Cannot read properties of undefined (reading substring)"
    | some _ => env.insertSession
  else
    match env.selectSession with
    | .error e => .error e
    | .ok true => .ok ()
    | .ok false =>
        match req.message with
        | none => .error "Cannot read properties of undefined (reading substring)"
        | some _ => env.insertSession

/-- Store-user-message step: the `INSERT INTO messages` row carries
`user_content = message`; with `message` absent the driver binds NULL and
the schema's `user_content TEXT NOT NULL` rejects the write. -/
def userMessageStep (env : TurnEnv) (req : ChatRequest) : Except String String :=
  match req.message with
  | none => .error "null value in column user_content violates not-null constraint"
  | some m =>
      match env.insertMessage with
      | .error e => .error e
      | .ok _ => .ok m

/-- Context step of the turn: Redis read errors are swallowed (`cache`
models hit, miss and swallowed error alike); on a miss the durable query
runs and its failure propagates. -/
def contextStep (env : TurnEnv) : Except String (List Turn) :=
  match env.cache with
  | some h => .ok h
  | none => env.selectHistory

/-- Tail of the try block from response generation on: the found/curating
statuses, the narrative completion (its null content defaulted), the
assistant-row update, then the single result payload. -/
def tryFromProducts (env : TurnEnv) (req : ChatRequest) (searchResult : List Hit)
    (toastdProducts : List Product) : List String × Except String ResultData :=
  let products := getDiverseProducts env.rand req.seenBrands searchResult 10
  let n := products.length
  let foundMsg :=
    if n = 0 then "No matching products found."
    else "Found " ++ toString n ++ " relevant products."
  withStatus foundMsg (withStatus "Curating recommendations..." (
    match env.narrative with
    | .error e => ([], .error e)
    | .ok content =>
        let assistantResponse :=
          jsStrOr content "I am sorry, I could not find any recommendations right now."
        match env.updateMessage with
        | .error e => ([], .error e)
        | .ok _ => ([], .ok ⟨products, toastdProducts, assistantResponse⟩)))

/-- Toastd step: the FastAPI search is tried first; on failure a direct
vector search of the `toastd` collection is tried, and a failure of that
fallback too degrades to no secondary results — neither failure aborts the
turn. -/
def tryFromToastd (env : TurnEnv) (req : ChatRequest) (searchResult : List Hit)
    (f : Option SearchFilter) : List String × Except String ResultData :=
  withStatus "Checking Toastd catalog..." (
    let toastdProducts :=
      match env.toastd with
      | .ok ps => ps
      | .error _ =>
          match env.toastdFallbackOk with
          | .error _ => []
          | .ok _ =>
              getDiverseProducts env.rand req.seenBrands
                (runSearch env.collections "toastd" f 10) 10
    tryFromProducts env req searchResult toastdProducts)

/-- Primary-search step with the catalog fallback, emitting the fallback
status before the second search. -/
def tryFromSearch (env : TurnEnv) (req : ChatRequest) (target : String)
    (f : Option SearchFilter) : List String × Except String ResultData :=
  match env.searchOk with
  | .error e => ([], .error e)
  | .ok _ =>
      let r1 := runSearch env.collections target f 60
      if r1.length = 0 ∧ target ≠ "products" then
        withStatus ("No results in " ++ target ++ ", checking general products...") (
          match env.fallbackSearchOk with
          | .error e => ([], .error e)
          | .ok _ => tryFromToastd env req (runSearch env.collections "products" f 60) f)
      else
        tryFromToastd env req r1 f

/-- Intent step: the completion call, the `JSON.parse` of its content and
the embedding call, then the filter construction and the search status. -/
def tryFromIntent (env : TurnEnv) (req : ChatRequest) (message : String) :
    List String × Except String ResultData :=
  match env.intentCompletion with
  | .error e => ([], .error e)
  | .ok content =>
      match extractIntent message content with
      | .error e => ([], .error e)
      | .ok intent =>
          match env.embedding with
          | .error e => ([], .error e)
          | .ok _ =>
              let f := effectiveFilter
                (buildSearchFilter intent.price_min intent.price_max req.excludeIds)
              withStatus ("Searching in " ++ intent.targetCollection ++ "...")
                (tryFromSearch env req intent.targetCollection f)

/-- Context retrieval and the analyzing status. -/
def tryFromContext (env : TurnEnv) (req : ChatRequest) (message : String) :
    List String × Except String ResultData :=
  match contextStep env with
  | .error e => ([], .error e)
  | .ok _ => withStatus "Analyzing your request..." (tryFromIntent env req message)

/-- Whole try block of the chat POST handler: the status messages sent, and
either the result payload or the thrown error. -/
def runTry (env : TurnEnv) (req : ChatRequest) : List String × Except String ResultData :=
  match sessionStep env req with
  | .error e => ([], .error e)
  | .ok _ =>
      match userMessageStep env req with
      | .error e => ([], .error e)
      | .ok message => withStatus "Thinking..." (tryFromContext env req message)

/-- Event stream of one chat POST execution: the statuses of the try block
followed by the single terminal event — the result on success, the error
the catch block emits on a throw — after which the stream closes. -/
def handleTurn (env : TurnEnv) (req : ChatRequest) : List StreamEvent :=
  match runTry env req with
  | (msgs, .ok d) => msgs.map StreamEvent.status ++ [.result d]
  | (msgs, .error e) => msgs.map StreamEvent.status ++ [.error e]

/-! Concrete instances used as witnesses and counterexamples. -/

/-- Pool `[A, A, B, A, C, B, D]` of the spec's diversity example, ids 1-7,
in descending relevance order. -/
def examplePool : List Hit :=
  [⟨1, ⟨"A", 10⟩⟩, ⟨2, ⟨"A", 10⟩⟩, ⟨3, ⟨"B", 10⟩⟩, ⟨4, ⟨"A", 10⟩⟩,
   ⟨5, ⟨"C", 10⟩⟩, ⟨6, ⟨"B", 10⟩⟩, ⟨7, ⟨"D", 10⟩⟩]

/-- One reachable outcome of `Math.random` for a 7-element pool: swap
position 6 with 2 and position 5 with 3, leave the rest in place. -/
def exampleRand : Nat → Nat :=
  fun i => if i = 6 then 2 else if i = 5 then 3 else i

/-- Two-item pool with one new brand (A) and one seen brand (B). -/
def twoBrandPool : List Hit := [⟨1, ⟨"A", 10⟩⟩, ⟨2, ⟨"B", 10⟩⟩]

/-- Shuffle outcome that swaps the two front items. -/
def swapFrontRand : Nat → Nat := fun _ => 0

/-- Small pool for the exclusion witness. -/
def c2Pool : List Hit := [⟨1, ⟨"A", 5⟩⟩, ⟨2, ⟨"B", 6⟩⟩]

/-- Vector index holding one product in the generic catalog and nothing in
any targeted catalog. -/
def fallbackDb : String → List Hit :=
  fun c => if c = "products" then [⟨1, ⟨"A", 5⟩⟩] else []

/-- Eight completed turns. -/
def turns8 : List Turn :=
  [⟨"u1", "a1"⟩, ⟨"u2", "a2"⟩, ⟨"u3", "a3"⟩, ⟨"u4", "a4"⟩,
   ⟨"u5", "a5"⟩, ⟨"u6", "a6"⟩, ⟨"u7", "a7"⟩, ⟨"u8", "a8"⟩]

/-- Two completed turns. -/
def turns2 : List Turn := [⟨"u1", "a1"⟩, ⟨"u2", "a2"⟩]

/-- Environment in which every external call succeeds. -/
def okEnv : TurnEnv :=
  { rand := fun i => i,
    selectSession := .ok true,
    insertSession := .ok (),
    insertMessage := .ok (),
    cache := some [],
    selectHistory := .ok [],
    intentCompletion := .ok .empty,
    embedding := .ok (),
    collections := fun c => if c = "products" then [⟨1, ⟨"A", 5⟩⟩] else [],
    searchOk := .ok (),
    fallbackSearchOk := .ok (),
    toastd := .ok [],
    toastdFallbackOk := .ok (),
    narrative := .ok (some "Here are some ideas."),
    updateMessage := .ok () }

/-- Environment in which the intent completion returns prose instead of
JSON. -/
def nonJsonEnv : TurnEnv :=
  { okEnv with intentCompletion := .ok (.nonJson "Sure, here is what I think") }

/-- Well-formed chat request. -/
def baseReq : ChatRequest :=
  { message := some "gift", sessionId := some "s1", isReload := false,
    excludeIds := [], seenBrands := [] }

/-- Chat request with the message field absent. -/
def noMessageReq : ChatRequest := { baseReq with message := none }

/-- Feedback body missing the rating. -/
def noRatingFeedback : FeedbackBody :=
  { sessionId := some "s1", messageId := some "m1", productId := some "p1",
    rating := none, reason := some "nice" }

/-! General list lemmas used by the development. -/

open List

theorem toFinset_eq_of_perm {α : Type} [DecidableEq α] {l₁ l₂ : List α}
    (h : l₁.Perm l₂) : l₁.toFinset = l₂.toFinset :=
  Finset.ext fun x => by simp [List.mem_toFinset, h.mem_iff]

theorem listSwap_perm {α : Type} [DecidableEq α] (l : List α) (i j : Nat) :
    (listSwap l i j).Perm l := by
  unfold listSwap
  cases hi : l[i]? with
  | none => exact List.Perm.refl l
  | some a =>
    cases hj : l[j]? with
    | none => exact List.Perm.refl l
    | some b =>
      have hi2 : i < l.length := by
        by_contra h
        rw [List.getElem?_eq_none (by omega)] at hi
        exact Option.noConfusion hi
      have hj2 : j < l.length := by
        by_contra h
        rw [List.getElem?_eq_none (by omega)] at hj
        exact Option.noConfusion hj
      have ha : l[i] = a := by
        have h2 := List.getElem?_eq_getElem hi2
        rw [hi] at h2
        simpa using h2.symm
      have hb : l[j] = b := by
        have h2 := List.getElem?_eq_getElem hj2
        rw [hj] at h2
        simpa using h2.symm
      rw [List.perm_iff_count]
      intro x
      have hjset : j < (l.set i b).length := by simpa using hj2
      rw [List.count_set (h := hjset), List.count_set (h := hi2)]
      have hgs : (l.set i b)[j] = if i = j then b else l[j] :=
        List.getElem_set (h := hjset)
      have hmem : a ∈ l := ha ▸ List.getElem_mem hi2
      have hcnt : (a == x) = true → 1 ≤ l.count x := by
        intro hax
        rw [beq_iff_eq] at hax
        subst hax
        exact List.count_pos_iff.mpr hmem
      rw [hgs, ha, hb]
      by_cases hij : i = j
      · subst hij
        simp only [if_pos rfl]
        rw [← ha] at hcnt
        split_ifs with h1 h2 <;> simp_all
      · simp only [if_neg hij]
        split_ifs with h1 h2 <;> simp_all

theorem fyAux_perm {α : Type} [DecidableEq α] (rand : Nat → Nat) :
    ∀ (i : Nat) (l : List α), (fyAux rand i l).Perm l := by
  intro i
  induction i with
  | zero => intro l; exact List.Perm.refl l
  | succ n ih =>
      intro l
      exact (ih (listSwap l (n + 1) (rand (n + 1) % (n + 2)))).trans
        (listSwap_perm l (n + 1) (rand (n + 1) % (n + 2)))

theorem fisherYates_perm {α : Type} [DecidableEq α] (rand : Nat → Nat)
    (l : List α) : (fisherYates rand l).Perm l :=
  fyAux_perm rand (l.length - 1) l

theorem fisherYates_length {α : Type} [DecidableEq α] (rand : Nat → Nat)
    (l : List α) : (fisherYates rand l).length = l.length :=
  (fisherYates_perm rand l).length_eq

theorem filterMap_cons_toList {α β : Type} (f : α → Option β) (a : α) (l : List α) :
    (a :: l).filterMap f = (f a).toList ++ l.filterMap f := by
  cases h : f a <;> simp [List.filterMap_cons, h]

theorem flatMap_append_perm {α ι : Type} (is : List ι) (f g : ι → List α) :
    (is.flatMap (fun i => f i ++ g i)).Perm (is.flatMap f ++ is.flatMap g) := by
  induction is with
  | nil => simp
  | cons i is ih =>
      simp only [List.flatMap_cons]
      calc (f i ++ g i) ++ is.flatMap (fun i => f i ++ g i)
          ~ (f i ++ g i) ++ (is.flatMap f ++ is.flatMap g) :=
            List.Perm.append_left _ ih
        _ = f i ++ (g i ++ is.flatMap f ++ is.flatMap g) := by
            simp [List.append_assoc]
        _ ~ f i ++ (is.flatMap f ++ g i ++ is.flatMap g) :=
            List.Perm.append_left _
              (List.Perm.append_right _ List.perm_append_comm)
        _ = (f i ++ is.flatMap f) ++ (g i ++ is.flatMap g) := by
            simp [List.append_assoc]


theorem flatMap_range_getElem {α : Type} (g : List α) (n : Nat) :
    (List.range n).flatMap (fun i => (g[i]?).toList) = g.take n := by
  induction n with
  | zero => simp
  | succ m ih =>
      rw [List.range_succ, List.flatMap_append, ih]
      simp [List.take_succ]

theorem transpose_flatten_perm {α : Type} (gs : List (List α)) (n : Nat)
    (h : ∀ g ∈ gs, g.length ≤ n) :
    ((List.range n).flatMap (fun i => gs.filterMap (fun g => g[i]?))).Perm
      gs.flatten := by
  induction gs with
  | nil => simp
  | cons g gs ih =>
      have hrow : ∀ i : Nat,
          (g :: gs).filterMap (fun g => g[i]?) =
            (g[i]?).toList ++ gs.filterMap (fun g => g[i]?) := fun i =>
        filterMap_cons_toList (fun g => g[i]?) g gs
      calc (List.range n).flatMap (fun i => (g :: gs).filterMap (fun g => g[i]?))
          = (List.range n).flatMap
              (fun i => (g[i]?).toList ++ gs.filterMap (fun g => g[i]?)) := by
            simp only [hrow]
        _ ~ (List.range n).flatMap (fun i => (g[i]?).toList) ++
              (List.range n).flatMap (fun i => gs.filterMap (fun g => g[i]?)) :=
            flatMap_append_perm _ _ _
        _ = g.take n ++
              (List.range n).flatMap (fun i => gs.filterMap (fun g => g[i]?)) := by
            rw [flatMap_range_getElem]
        _ = g ++ (List.range n).flatMap (fun i => gs.filterMap (fun g => g[i]?)) := by
            rw [List.take_of_length_le (h g (by simp))]
        _ ~ g ++ gs.flatten :=
            List.Perm.append_left g (ih fun x hx => h x (by simp [hx]))

theorem maxGroupLen_ge (gs : List (List Product)) :
    ∀ g ∈ gs, g.length ≤ maxGroupLen gs := by
  have key : ∀ (gs : List (List Product)) (init : Nat),
      init ≤ gs.foldl (fun m g => max m g.length) init ∧
      ∀ g ∈ gs, g.length ≤ gs.foldl (fun m g => max m g.length) init := by
    intro gs
    induction gs with
    | nil => intro init; exact ⟨Nat.le_refl _, by simp⟩
    | cons g gs ih =>
        intro init
        constructor
        · exact le_trans (Nat.le_max_left init g.length) (ih (max init g.length)).1
        · intro x hx
          rcases List.mem_cons.mp hx with h | h
          · subst h
            exact le_trans (Nat.le_max_right init x.length) (ih (max init x.length)).1
          · exact (ih (max init g.length)).2 x h
  exact (key gs 0).2

theorem flatten_addToGroups_perm (b : String) (p : Product)
    (gs : List (String × List Product)) :
    (((addToGroups b p gs).map Prod.snd).flatten).Perm
      ((gs.map Prod.snd).flatten ++ [p]) := by
  induction gs with
  | nil => simp [addToGroups]
  | cons g gs ih =>
      by_cases h : g.1 = b
      · simp only [addToGroups, if_pos h, List.map_cons, List.flatten_cons]
        calc (g.2 ++ [p]) ++ (gs.map Prod.snd).flatten
            = g.2 ++ ([p] ++ (gs.map Prod.snd).flatten) := by simp
          _ ~ g.2 ++ ((gs.map Prod.snd).flatten ++ [p]) :=
              Perm.append_left g.2 perm_append_comm
          _ = (g.2 ++ (gs.map Prod.snd).flatten) ++ [p] := by simp
      · simp only [addToGroups, if_neg h, List.map_cons, List.flatten_cons]
        calc g.2 ++ ((addToGroups b p gs).map Prod.snd).flatten
            ~ g.2 ++ ((gs.map Prod.snd).flatten ++ [p]) := Perm.append_left g.2 ih
          _ = (g.2 ++ (gs.map Prod.snd).flatten) ++ [p] := by simp

theorem flatten_brandGroups_perm (l : List Product) :
    (((brandGroups l).map Prod.snd).flatten).Perm l := by
  have key : ∀ (l : List Product) (acc : List (String × List Product)),
      (((l.foldl (fun acc p => addToGroups (effBrand p) p acc) acc).map
          Prod.snd).flatten).Perm ((acc.map Prod.snd).flatten ++ l) := by
    intro l
    induction l with
    | nil => intro acc; simp
    | cons p l ih =>
        intro acc
        simp only [List.foldl_cons]
        refine (ih (addToGroups (effBrand p) p acc)).trans ?_
        calc ((addToGroups (effBrand p) p acc).map Prod.snd).flatten ++ l
            ~ ((acc.map Prod.snd).flatten ++ [p]) ++ l :=
              Perm.append_right l (flatten_addToGroups_perm (effBrand p) p acc)
          _ = (acc.map Prod.snd).flatten ++ (p :: l) := by simp
  simpa [brandGroups] using key l []

theorem interleaveByBrand_perm (l : List Product) :
    (interleaveByBrand l).Perm l := by
  unfold interleaveByBrand
  exact (transpose_flatten_perm ((brandGroups l).map Prod.snd) _
    (maxGroupLen_ge ((brandGroups l).map Prod.snd))).trans
    (flatten_brandGroups_perm l)

/-! Lemmas about the sampling pool of the diversity merge. -/

theorem partition_perm (seen : List String) (items : List Hit) :
    (newBrandItems seen items ++ oldBrandItems seen items).Perm
      (items.map toProduct) := by
  have h := List.filter_append_perm (fun p => !(seen.contains (effBrand p)))
    (items.map toProduct)
  simpa [newBrandItems, oldBrandItems, Bool.not_not] using h

theorem finalPool_perm (seen : List String) (items : List Hit) :
    (interleaveByBrand (newBrandItems seen items) ++
      interleaveByBrand (oldBrandItems seen items)).Perm (items.map toProduct) :=
  ((interleaveByBrand_perm _).append (interleaveByBrand_perm _)).trans
    (partition_perm seen items)

theorem diversePool_eq (seen : List String) (items : List Hit) (limit : Nat) :
    diversePool seen items limit =
      (interleaveByBrand (newBrandItems seen items) ++
        interleaveByBrand (oldBrandItems seen items)).take
        (min (interleaveByBrand (newBrandItems seen items) ++
          interleaveByBrand (oldBrandItems seen items)).length (limit * 2)) := rfl

theorem finalPool_length (seen : List String) (items : List Hit) :
    (interleaveByBrand (newBrandItems seen items) ++
      interleaveByBrand (oldBrandItems seen items)).length = items.length := by
  have h := (finalPool_perm seen items).length_eq
  simpa using h

theorem diversePool_length (seen : List String) (items : List Hit) (limit : Nat) :
    (diversePool seen items limit).length = min items.length (limit * 2) := by
  rw [diversePool_eq, List.length_take, finalPool_length]
  omega

theorem diversePool_sublist (seen : List String) (items : List Hit) (limit : Nat) :
    (diversePool seen items limit).Sublist
      (interleaveByBrand (newBrandItems seen items) ++
        interleaveByBrand (oldBrandItems seen items)) := by
  rw [diversePool_eq]
  exact List.take_sublist _ _

theorem diversePool_subperm (seen : List String) (items : List Hit) (limit : Nat) :
    (diversePool seen items limit).Subperm (items.map toProduct) :=
  (diversePool_sublist seen items limit).subperm.trans
    (finalPool_perm seen items).subperm

theorem getDiverseProducts_subperm (rand : Nat → Nat) (seen : List String)
    (items : List Hit) (limit : Nat) :
    (getDiverseProducts rand seen items limit).Subperm (items.map toProduct) := by
  unfold getDiverseProducts
  split
  · exact List.nil_subperm
  · exact ((List.take_sublist _ _).subperm.trans
      (fisherYates_perm rand _).subperm).trans
      (diversePool_subperm seen items limit)

/-- C10. Conservation of the diversity merge: the empty pool yields the
empty list; otherwise the output length is exactly
`min(limit, pool size, 2 × limit)`; the output is drawn from the pool with
no extra duplication (a sub-permutation of the pool); and the partition,
the per-brand interleave and the Fisher-Yates shuffle are permutations. -/
theorem c10_conservation (rand : Nat → Nat) (seen : List String)
    (items : List Hit) (limit : Nat) :
    (items = [] → getDiverseProducts rand seen items limit = []) ∧
    (getDiverseProducts rand seen items limit).length =
      min limit (min items.length (limit * 2)) ∧
    (getDiverseProducts rand seen items limit).Subperm (items.map toProduct) ∧
    (∀ l : List Product, (interleaveByBrand l).Perm l) ∧
    (∀ l : List Product, (fisherYates rand l).Perm l) ∧
    (newBrandItems seen items ++ oldBrandItems seen items).Perm
      (items.map toProduct) := by
  refine ⟨?_, ?_, getDiverseProducts_subperm rand seen items limit,
    interleaveByBrand_perm, fisherYates_perm rand, partition_perm seen items⟩
  · intro h
    subst h
    rfl
  · unfold getDiverseProducts
    split
    · rename_i h
      rw [List.length_eq_zero] at h
      subst h
      simp
    · rw [List.length_take, fisherYates_length, diversePool_length]

/-- Closed instance of `c10_conservation` at a concrete pool. -/
theorem c10_conservation_witness :
    (getDiverseProducts exampleRand [] examplePool 5).length =
      min 5 (min examplePool.length (5 * 2)) :=
  (c10_conservation exampleRand [] examplePool 5).2.1

/-- C3 counterexample. With `seenBrands = [B]`, the pool `[A, B]` (brand A
new) and limit 1, the shuffle outcome that swaps the two front items makes
the output consist of the single seen-brand product B, so the output of
the merge contains no product of an unseen brand even though the pool
does. -/
theorem c3_counterexample :
    (∃ h ∈ twoBrandPool, (["B"].contains (effBrand (toProduct h))) = false) ∧
    (∀ p ∈ getDiverseProducts swapFrontRand ["B"] twoBrandPool 1,
      (["B"].contains (effBrand p)) = true) := by
  decide

/-- C3 (amended). New-brand priority holds of the sampling pool the merge
shuffles and truncates: whenever the pool contains an item of an unseen
brand and the limit is positive, the shuffled 2×limit sampling pool
contains a product of an unseen brand; the truncated output itself is only
guaranteed to when the pool fits inside the limit. -/
theorem c3_new_brand_priority (rand : Nat → Nat) (seen : List String)
    (items : List Hit) (limit : Nat) (hlim : 1 ≤ limit)
    (hnew : ∃ h ∈ items, (seen.contains (effBrand (toProduct h))) = false) :
    (∃ p ∈ fisherYates rand (diversePool seen items limit),
      (seen.contains (effBrand p)) = false) ∧
    (items.length ≤ limit →
      ∃ p ∈ getDiverseProducts rand seen items limit,
        (seen.contains (effBrand p)) = false) := by
  obtain ⟨h0, hmem, hb⟩ := hnew
  have hq0 : toProduct h0 ∈ newBrandItems seen items := by
    rw [newBrandItems, List.mem_filter]
    exact ⟨List.mem_map_of_mem toProduct hmem, by rw [hb]; rfl⟩
  have hnil : newBrandItems seen items ≠ [] := by
    intro h
    rw [h] at hq0
    exact List.not_mem_nil _ hq0
  have hlen : 0 < (interleaveByBrand (newBrandItems seen items)).length := by
    rw [(interleaveByBrand_perm _).length_eq]
    exact List.length_pos.mpr hnil
  obtain ⟨q, t, hqt⟩ : ∃ q t, interleaveByBrand (newBrandItems seen items) = q :: t := by
    cases hcase : interleaveByBrand (newBrandItems seen items) with
    | nil => rw [hcase] at hlen; simp at hlen
    | cons q t => exact ⟨q, t, rfl⟩
  have hqNew : q ∈ newBrandItems seen items := by
    refine (interleaveByBrand_perm (newBrandItems seen items)).subset ?_
    rw [hqt]
    exact List.mem_cons_self q t
  have hqProp : (seen.contains (effBrand q)) = false := by
    have h2 := (List.mem_filter.mp hqNew).2
    simpa using h2
  have hpool : q ∈ diversePool seen items limit := by
    rw [diversePool_eq, hqt, List.cons_append]
    have h1 : 0 < min (q :: (t ++ interleaveByBrand (oldBrandItems seen items))).length
        (limit * 2) := by
      simp only [List.length_cons]
      omega
    obtain ⟨m, hm⟩ := Nat.exists_eq_succ_of_ne_zero (Nat.pos_iff_ne_zero.mp h1)
    rw [hm, List.take_succ_cons]
    exact List.mem_cons_self q _
  refine ⟨⟨q, (fisherYates_perm rand _).mem_iff.mpr hpool, hqProp⟩, ?_⟩
  intro hle
  have hne : items.length ≠ 0 := by
    intro h
    rw [List.length_eq_zero] at h
    subst h
    exact List.not_mem_nil h0 hmem
  have hfy : (fisherYates rand (diversePool seen items limit)).length ≤ limit := by
    rw [fisherYates_length, diversePool_length]
    omega
  refine ⟨q, ?_, hqProp⟩
  unfold getDiverseProducts
  rw [if_neg hne, List.take_of_length_le hfy]
  exact (fisherYates_perm rand _).mem_iff.mpr hpool

/-- Closed instance of `c3_new_brand_priority`: on the two-item pool with
seen brand B, the shuffled sampling pool always retains the new brand A. -/
theorem c3_new_brand_priority_witness :
    ∃ p ∈ fisherYates swapFrontRand (diversePool ["B"] twoBrandPool 1),
      (["B"].contains (effBrand p)) = false :=
  (c3_new_brand_priority swapFrontRand ["B"] twoBrandPool 1 (by decide)
    ⟨⟨1, ⟨"A", 10⟩⟩, by decide, by decide⟩).1

/-- C2. Reload exclusion: a non-empty `excludeIds` list puts a
`must_not`/`has_id` entry holding exactly those ids on the filter, the
filter object is then passed to the search, and — the index honouring its
filter — no returned hit, nor any product of the diversity merge applied
to the returned hits, has an id in `excludeIds`. -/
theorem c2_reload_exclusion (rand : Nat → Nat) (seen : List String)
    (price_min price_max : Option Nat) (excludeIds : List Nat)
    (pool : List Hit) (hne : excludeIds ≠ []) :
    (buildSearchFilter price_min price_max excludeIds).must_not = some excludeIds ∧
    (∀ h ∈ searchIndex pool
        (effectiveFilter (buildSearchFilter price_min price_max excludeIds)) 60,
      h.id ∉ excludeIds) ∧
    (∀ p ∈ getDiverseProducts rand seen
        (searchIndex pool
          (effectiveFilter (buildSearchFilter price_min price_max excludeIds)) 60) 10,
      p.id ∉ excludeIds) := by
  have hmn : (buildSearchFilter price_min price_max excludeIds).must_not =
      some excludeIds := by
    have hpos : 0 < excludeIds.length := List.length_pos.mpr hne
    simp [buildSearchFilter, hpos]
  have heff : effectiveFilter (buildSearchFilter price_min price_max excludeIds) =
      some (buildSearchFilter price_min price_max excludeIds) := by
    rw [effectiveFilter, if_pos]
    rw [filterHasKeys, hmn]
    simp
  have hhits : ∀ h ∈ searchIndex pool
      (effectiveFilter (buildSearchFilter price_min price_max excludeIds)) 60,
      h.id ∉ excludeIds := by
    intro h hmem
    rw [heff] at hmem
    unfold searchIndex at hmem
    have hmem2 := List.mem_of_mem_take hmem
    have hmatch := (List.mem_filter.mp hmem2).2
    rw [hitMatches, Bool.and_eq_true, hmn] at hmatch
    have h2 := hmatch.2
    simp only [Bool.not_eq_eq_eq_not, Bool.not_true] at h2
    simpa using h2
  refine ⟨hmn, hhits, ?_⟩
  intro p hp
  have hsub := (getDiverseProducts_subperm rand seen
    (searchIndex pool
      (effectiveFilter (buildSearchFilter price_min price_max excludeIds)) 60)
    10).subset hp
  obtain ⟨h, hh, rfl⟩ := List.mem_map.mp hsub
  exact hhits h hh

/-- Closed instance of `c2_reload_exclusion` at a concrete pool and
exclusion list. -/
theorem c2_reload_exclusion_witness :
    (buildSearchFilter none none [1]).must_not = some [1] ∧
    (Hit.mk 2 ⟨"B", 6⟩).id ∉ [1] :=
  ⟨(c2_reload_exclusion (fun i => i) [] none none [1] c2Pool (by decide)).1,
   (c2_reload_exclusion (fun i => i) [] none none [1] c2Pool
      (by decide)).2.1 ⟨2, ⟨"B", 6⟩⟩ (by decide)⟩

/-- C4. Catalog fallback: when the targeted search returns zero results
and the target is not the generic `products` catalog, the retriever
returns the result of the identical search (same index, same filter, same
limit) against `products`, having queried both collections; otherwise it
returns the targeted result having queried only the target. -/
theorem c4_catalog_fallback (db : String → List Hit) (f : Option SearchFilter)
    (target : String) :
    ((runSearch db target f 60).length = 0 → target ≠ "products" →
      primarySearch db f target =
        (runSearch db "products" f 60, [target, "products"])) ∧
    ((runSearch db target f 60).length ≠ 0 ∨ target = "products" →
      primarySearch db f target = (runSearch db target f 60, [target])) := by
  constructor
  · intro h1 h2
    rw [primarySearch, if_pos ⟨h1, h2⟩]
  · intro h
    rw [primarySearch, if_neg]
    intro hcond
    rcases h with h | h
    · exact h hcond.1
    · exact hcond.2 h

/-- Closed instance of `c4_catalog_fallback`: the empty `girlfriends`
catalog falls back to the generic catalog. -/
theorem c4_catalog_fallback_witness :
    primarySearch fallbackDb none "girlfriends" =
      (runSearch fallbackDb "products" none 60, ["girlfriends", "products"]) :=
  (c4_catalog_fallback fallbackDb none "girlfriends").1 (by decide) (by decide)

/-! Structure of the per-brand groups, for the diversity invariant. -/

theorem addToGroups_keys (b : String) (p : Product)
    (gs : List (String × List Product)) :
    (addToGroups b p gs).map Prod.fst =
      if (gs.map Prod.fst).contains b then gs.map Prod.fst
      else gs.map Prod.fst ++ [b] := by
  induction gs with
  | nil => simp [addToGroups]
  | cons g gs ih =>
      by_cases h : g.1 = b
      · simp [addToGroups, h]
      · have hbeq : (b == g.1) = false := by
          rw [beq_eq_false_iff_ne]
          exact fun e => h e.symm
        simp only [addToGroups, if_neg h, List.map_cons, List.contains_cons, hbeq,
          Bool.false_or, ih]
        split_ifs <;> rfl

theorem addToGroups_good (b : String) (p : Product)
    (gs : List (String × List Product)) (hg : GoodGroups gs)
    (hb : effBrand p = b) : GoodGroups (addToGroups b p gs) := by
  induction gs with
  | nil =>
      refine ⟨?_, by simp [addToGroups]⟩
      intro pr hpr
      simp only [addToGroups, List.mem_singleton] at hpr
      subst hpr
      exact ⟨by simp, by simpa using hb⟩
  | cons g gs ih =>
      obtain ⟨hmem, hnd⟩ := hg
      have hghead := hmem g (List.mem_cons_self g gs)
      have htail : GoodGroups gs :=
        ⟨fun pr hpr => hmem pr (List.mem_cons_of_mem g hpr),
         (List.nodup_cons.mp hnd).2⟩
      have hnotin : g.1 ∉ gs.map Prod.fst := (List.nodup_cons.mp hnd).1
      by_cases h : g.1 = b
      · constructor
        · intro pr hpr
          rw [addToGroups, if_pos h] at hpr
          rcases List.mem_cons.mp hpr with hpr | hpr
          · subst hpr
            refine ⟨by simp, ?_⟩
            intro q hq
            rcases List.mem_append.mp hq with hq | hq
            · exact hghead.2 q hq
            · rw [List.mem_singleton] at hq
              subst hq
              exact hb.trans h.symm
          · exact hmem pr (List.mem_cons_of_mem g hpr)
        · rw [addToGroups, if_pos h]
          simpa using hnd
      · have hrec := ih htail
        constructor
        · intro pr hpr
          rw [addToGroups, if_neg h] at hpr
          rcases List.mem_cons.mp hpr with hpr | hpr
          · subst hpr
            exact hghead
          · exact hrec.1 pr hpr
        · rw [addToGroups, if_neg h, List.map_cons, List.nodup_cons]
          refine ⟨?_, hrec.2⟩
          rw [addToGroups_keys]
          by_cases hc : ((gs.map Prod.fst).contains b) = true
          · rw [if_pos hc]
            exact hnotin
          · rw [Bool.not_eq_true] at hc
            rw [if_neg (by rw [hc]; exact Bool.false_ne_true)]
            intro hmem2
            rcases List.mem_append.mp hmem2 with h2 | h2
            · exact hnotin h2
            · rw [List.mem_singleton] at h2
              exact h h2

theorem brandGroups_good (l : List Product) : GoodGroups (brandGroups l) := by
  have key : ∀ (l : List Product) (acc : List (String × List Product)),
      GoodGroups acc →
      GoodGroups (l.foldl (fun acc p => addToGroups (effBrand p) p acc) acc) := by
    intro l
    induction l with
    | nil => intro acc h; exact h
    | cons p l ih =>
        intro acc h
        exact ih _ (addToGroups_good (effBrand p) p acc h rfl)
  exact key l [] ⟨by simp, by simp⟩

theorem keys_eq_brands_toFinset (l : List Product) :
    ((brandGroups l).map Prod.fst).toFinset = (l.map effBrand).toFinset := by
  have hperm := flatten_brandGroups_perm l
  have hgood := brandGroups_good l
  ext b
  simp only [List.mem_toFinset, List.mem_map]
  constructor
  · rintro ⟨pr, hpr, rfl⟩
    obtain ⟨hne, hbr⟩ := hgood.1 pr hpr
    obtain ⟨q, hq⟩ := List.exists_mem_of_ne_nil pr.2 hne
    have hqfl : q ∈ ((brandGroups l).map Prod.snd).flatten := by
      rw [List.mem_flatten]
      exact ⟨pr.2, List.mem_map_of_mem Prod.snd hpr, hq⟩
    exact ⟨q, hperm.subset hqfl, hbr q hq⟩
  · rintro ⟨p, hp, rfl⟩
    have hpfl : p ∈ ((brandGroups l).map Prod.snd).flatten := hperm.symm.subset hp
    rw [List.mem_flatten] at hpfl
    obtain ⟨s, hs, hps⟩ := hpfl
    obtain ⟨pr, hpr, rfl⟩ := List.mem_map.mp hs
    exact ⟨pr, hpr, ((hgood.1 pr hpr).2 p hps).symm⟩

theorem keys_length_eq (l : List Product) :
    ((brandGroups l).map Prod.fst).length = distinctBrandCount l := by
  rw [← List.toFinset_card_of_nodup (brandGroups_good l).2,
    keys_eq_brands_toFinset]
  rfl

theorem heads_map_brand (gs : List (String × List Product))
    (h : ∀ pr ∈ gs, pr.2 ≠ [] ∧ ∀ p ∈ pr.2, effBrand p = pr.1) :
    (((gs.map Prod.snd).filterMap (fun g => g[0]?)).map effBrand) =
      gs.map Prod.fst := by
  induction gs with
  | nil => simp
  | cons pr gs ih =>
      obtain ⟨hne, hbr⟩ := h pr (List.mem_cons_self pr gs)
      obtain ⟨q, t, hqt⟩ : ∃ q t, pr.2 = q :: t := by
        cases hcase : pr.2 with
        | nil => exact absurd hcase hne
        | cons q t => exact ⟨q, t, rfl⟩
      rw [List.map_cons, filterMap_cons_toList, hqt]
      simp only [List.getElem?_cons_zero, Option.toList_some, List.singleton_append,
        List.map_cons]
      rw [ih (fun x hx => h x (List.mem_cons_of_mem pr hx))]
      rw [hbr q (by rw [hqt]; exact List.mem_cons_self q t)]

theorem interleave_heads_decomp (l : List Product) (hl : l ≠ []) :
    ∃ rest, interleaveByBrand l =
      ((brandGroups l).map Prod.snd).filterMap (fun g => g[0]?) ++ rest := by
  have hfl : ((brandGroups l).map Prod.snd).flatten ≠ [] := by
    intro h
    have := (flatten_brandGroups_perm l).length_eq
    rw [h] at this
    exact hl (List.length_eq_zero.mp this.symm)
  obtain ⟨x, hx⟩ := List.exists_mem_of_ne_nil _ hfl
  rw [List.mem_flatten] at hx
  obtain ⟨g, hg, hxg⟩ := hx
  have hgn : 1 ≤ g.length :=
    List.length_pos.mpr (by rintro rfl; exact absurd hxg (List.not_mem_nil x))
  have hmax : 1 ≤ maxGroupLen ((brandGroups l).map Prod.snd) :=
    le_trans hgn (maxGroupLen_ge _ g hg)
  obtain ⟨m, hm⟩ := Nat.exists_eq_succ_of_ne_zero (by omega : maxGroupLen ((brandGroups l).map Prod.snd) ≠ 0)
  refine ⟨((List.range m).map (· + 1)).flatMap
    (fun i => ((brandGroups l).map Prod.snd).filterMap (fun g => g[i]?)), ?_⟩
  rw [interleaveByBrand]
  rw [hm, List.range_succ_eq_map, List.flatMap_cons]

theorem distinctBrandCount_perm {l l2 : List Product} (h : l.Perm l2) :
    distinctBrandCount l = distinctBrandCount l2 :=
  congrArg Finset.card (toFinset_eq_of_perm (h.map effBrand))

theorem distinctBrandCount_append_left (x y : List Product) :
    distinctBrandCount x ≤ distinctBrandCount (x ++ y) := by
  unfold distinctBrandCount
  rw [List.map_append, List.toFinset_append]
  exact Finset.card_le_card Finset.subset_union_left

theorem brandCount_take_interleave (l : List Product) (k : Nat) (hl : l ≠ []) :
    min k (distinctBrandCount l) ≤ distinctBrandCount ((interleaveByBrand l).take k) := by
  obtain ⟨rest, hdecomp⟩ := interleave_heads_decomp l hl
  set heads := ((brandGroups l).map Prod.snd).filterMap (fun g => g[0]?) with hheads
  have hkeys : heads.map effBrand = (brandGroups l).map Prod.fst :=
    heads_map_brand (brandGroups l) (brandGroups_good l).1
  rw [hdecomp, List.take_append_eq_append_take]
  refine le_trans ?_ (distinctBrandCount_append_left (heads.take k) _)
  have hmap : (heads.take k).map effBrand = ((brandGroups l).map Prod.fst).take k := by
    rw [List.map_take, hkeys]
  have hnd : ((heads.take k).map effBrand).Nodup := by
    rw [hmap]
    exact (brandGroups_good l).2.sublist (List.take_sublist k _)
  have hcard : distinctBrandCount (heads.take k) =
      min k (distinctBrandCount l) := by
    unfold distinctBrandCount
    rw [List.toFinset_card_of_nodup hnd, hmap, List.length_take, keys_length_eq]
    rfl
  rw [hcard]

theorem interleave_nil : interleaveByBrand [] = [] := rfl

theorem newBrandItems_no_seen (items : List Hit) :
    newBrandItems [] items = items.map toProduct := by
  simp [newBrandItems]

theorem oldBrandItems_no_seen (items : List Hit) :
    oldBrandItems [] items = [] := by
  simp [oldBrandItems]

/-- C1 counterexample. On the spec's own example pool `[A,A,B,A,C,B,D]`
with limit 5 and no seen brands, the shuffle outcome `exampleRand` (swap
positions 6,2 and 5,3) pushes brands C and D out of the truncated output:
the output has only the 2 distinct brands A and B, although the pool has
4, so neither the general invariant nor the example holds for every
outcome of the internal random shuffle. -/
theorem c1_counterexample :
    4 ≤ distinctBrandCount (examplePool.map toProduct) ∧
    "C" ∉ (getDiverseProducts exampleRand [] examplePool 5).map effBrand ∧
    "D" ∉ (getDiverseProducts exampleRand [] examplePool 5).map effBrand ∧
    distinctBrandCount (getDiverseProducts exampleRand [] examplePool 5) = 2 := by
  decide

/-- C1 (amended). The diversity invariant holds of the sampling pool the
merge shuffles and then truncates: with no seen brands, a pool of at least
4 distinct brands and a limit of at least 4, the shuffled 2×limit sampling
pool contains at least `min(4, distinct brand count)` distinct brands, for
every outcome of the shuffle; the truncated output itself is only
guaranteed to when the pool fits inside the limit. -/
theorem c1_diversity_invariant (rand : Nat → Nat) (items : List Hit)
    (limit : Nat) (hlim : 4 ≤ limit)
    (hbrands : 4 ≤ distinctBrandCount (items.map toProduct)) :
    min 4 (distinctBrandCount (items.map toProduct)) ≤
      distinctBrandCount (fisherYates rand (diversePool [] items limit)) ∧
    (items.length ≤ limit →
      min 4 (distinctBrandCount (items.map toProduct)) ≤
        distinctBrandCount (getDiverseProducts rand [] items limit)) := by
  have hne : items.map toProduct ≠ [] := by
    intro h
    rw [distinctBrandCount, h] at hbrands
    simp at hbrands
  have hBle : distinctBrandCount (items.map toProduct) ≤ items.length := by
    refine le_trans (List.toFinset_card_le _) ?_
    simp
  have hpool : diversePool [] items limit =
      (interleaveByBrand (items.map toProduct)).take
        (min items.length (limit * 2)) := by
    rw [diversePool_eq, newBrandItems_no_seen, oldBrandItems_no_seen,
      interleave_nil, List.append_nil, (interleaveByBrand_perm _).length_eq]
    simp
  have hcount : min (min items.length (limit * 2))
      (distinctBrandCount (items.map toProduct)) ≤
      distinctBrandCount (diversePool [] items limit) := by
    rw [hpool]
    exact brandCount_take_interleave (items.map toProduct) _ hne
  have hmain : min 4 (distinctBrandCount (items.map toProduct)) ≤
      distinctBrandCount (diversePool [] items limit) := by
    refine le_trans ?_ hcount
    omega
  have hshuffle : distinctBrandCount (fisherYates rand (diversePool [] items limit)) =
      distinctBrandCount (diversePool [] items limit) :=
    distinctBrandCount_perm (fisherYates_perm rand _)
  refine ⟨by rw [hshuffle]; exact hmain, ?_⟩
  intro hle
  have hlen : items.length ≠ 0 := by
    intro h
    rw [List.length_eq_zero] at h
    exact hne (by rw [h]; rfl)
  have hfy : (fisherYates rand (diversePool [] items limit)).length ≤ limit := by
    rw [fisherYates_length, diversePool_length]
    omega
  rw [getDiverseProducts, if_neg hlen, List.take_of_length_le hfy, hshuffle]
  exact hmain

/-- Closed instance of `c1_diversity_invariant` on the example pool. -/
theorem c1_diversity_invariant_witness :
    min 4 (distinctBrandCount (examplePool.map toProduct)) ≤
      distinctBrandCount (fisherYates exampleRand (diversePool [] examplePool 5)) :=
  (c1_diversity_invariant exampleRand examplePool 5 (by decide) (by decide)).1

/-! Intent-extraction tolerance. -/

/-- C5 counterexample. A non-JSON completion reply makes the intent-parsing
step throw rather than default: `extractIntent` fails, and on a full turn
the throw surfaces as the terminal error event, so the turn does fail at
the intent-parsing step. -/
theorem c5_counterexample :
    extractIntent "gift" (.nonJson "Sure, here is what I think") =
      .error "Unexpected token in JSON" ∧
    handleTurn nonJsonEnv baseReq =
      [.status "Thinking...", .status "Analyzing your request...",
       .error "Unexpected token in JSON"] :=
  ⟨rfl, by decide⟩

/-- C5 (amended). For every reply that parses as JSON — including the
empty content that `content || '{}'` turns into the empty object — the
intent step succeeds and missing fields take their defaults: the refined
query defaults to the raw message, the target collection to `products`,
and absent preferences leave both price bounds unset, so no filter object
is passed to the search (with no exclusions). -/
theorem c5_intent_defaults (message : String) (j : IntentJson) :
    extractIntent message .empty =
      .ok { searchQuery := message, targetCollection := "products",
            price_min := none, price_max := none } ∧
    ∃ i, extractIntent message (.jsonObj j) = .ok i ∧
      (j.search_query = none → i.searchQuery = message) ∧
      (j.target_collection = none → i.targetCollection = "products") ∧
      (j.preferences = none →
        i.price_min = none ∧ i.price_max = none ∧
        effectiveFilter (buildSearchFilter i.price_min i.price_max []) = none) := by
  constructor
  · rfl
  · refine ⟨intentOfJson message j, rfl, ?_, ?_, ?_⟩
    · intro h
      simp [intentOfJson, jsStrOr, h]
    · intro h
      simp [intentOfJson, jsStrOr, h]
    · intro h
      refine ⟨by simp [intentOfJson, h], by simp [intentOfJson, h], ?_⟩
      simp [intentOfJson, h, buildSearchFilter, effectiveFilter, filterHasKeys]

/-- Closed instance of `c5_intent_defaults` at a concrete message. -/
theorem c5_intent_defaults_witness :
    extractIntent "gift" .empty =
      .ok { searchQuery := "gift", targetCollection := "products",
            price_min := none, price_max := none } :=
  (c5_intent_defaults "gift" ⟨none, none, none⟩).1

/-! Context-cache round trip. -/

theorem cacheAfterTurns_append (ts : List Turn) (t : Turn) :
    cacheAfterTurns (ts ++ [t]) = updateStep (cacheAfterTurns ts) t := by
  rw [cacheAfterTurns, cacheAfterTurns, List.foldl_append]
  rfl

theorem updateStep_of_le (h : List Turn) (t : Turn) (hlen : h.length + 1 ≤ 10) :
    updateStep h t = h ++ [t] := by
  unfold updateStep
  simp only [List.length_append, List.length_cons, List.length_nil]
  rw [if_neg (by omega)]

theorem cacheAfterTurns_of_le (turns : List Turn) (h : turns.length ≤ 10) :
    cacheAfterTurns turns = turns := by
  induction turns using List.reverseRecOn with
  | nil => rfl
  | append_singleton ts t ih =>
      rw [List.length_append, List.length_cons, List.length_nil] at h
      rw [cacheAfterTurns_append, ih (by omega), updateStep_of_le ts t (by omega)]

/-- C6 counterexample. After 8 completed turns the warm cache holds all 8
turn pairs while the durable reconstruction (`LIMIT 7`) holds only the
last 7, so `get_context` served from the warm cache differs from the
cache-absent reconstruction produced by the same turn sequence. -/
theorem c6_counterexample :
    getSessionContext (some (cacheAfterTurns turns8)) turns8 ≠
      getSessionContext none turns8 ∧
    (cacheAfterTurns turns8).length = 8 ∧
    (dbReconstruct turns8).length = 7 := by
  decide

/-- C6 (amended). The round trip holds for sessions of up to 7 completed
turns: the warm-cache read and the cache-absent durable reconstruction
return the same oldest-first list, namely the full turn sequence. Beyond 7
turns the cache keeps up to 10 pairs but the durable query is capped at 7,
and the two paths disagree. -/
theorem c6_context_round_trip (turns : List Turn) (h : turns.length ≤ 7) :
    getSessionContext (some (cacheAfterTurns turns)) turns =
      getSessionContext none turns ∧
    getSessionContext none turns = turns := by
  have hc : cacheAfterTurns turns = turns := cacheAfterTurns_of_le turns (by omega)
  have hd : dbReconstruct turns = turns := by
    rw [dbReconstruct, List.take_of_length_le (by simpa using h),
      List.reverse_reverse]
  exact ⟨by simp [getSessionContext, hc, hd], by simp [getSessionContext, hd]⟩

/-- Closed instance of `c6_context_round_trip` at two completed turns. -/
theorem c6_context_round_trip_witness :
    getSessionContext (some (cacheAfterTurns turns2)) turns2 =
      getSessionContext none turns2 :=
  (c6_context_round_trip turns2 (by decide)).1

/-! Stream protocol. -/

/-- C7. Stream-event protocol: every execution of the chat-turn handler
emits zero or more `status` events followed by exactly one terminal event
(`result` or `error`), which is the last event of the stream. -/
theorem c7_stream_protocol (env : TurnEnv) (req : ChatRequest) :
    (∀ e ∈ (handleTurn env req).dropLast, isStatus e = true) ∧
    (∃ t, (handleTurn env req).getLast? = some t ∧ isTerminal t = true) ∧
    (handleTurn env req).countP (fun e => isTerminal e) = 1 := by
  have key : ∀ (msgs : List String) (t : StreamEvent), isTerminal t = true →
      (∀ e ∈ (msgs.map StreamEvent.status ++ [t]).dropLast, isStatus e = true) ∧
      (∃ u, (msgs.map StreamEvent.status ++ [t]).getLast? = some u ∧
        isTerminal u = true) ∧
      (msgs.map StreamEvent.status ++ [t]).countP (fun e => isTerminal e) = 1 := by
    intro msgs t ht
    refine ⟨?_, ⟨t, List.getLast?_concat _, ht⟩, ?_⟩
    · rw [List.dropLast_concat]
      intro e he
      obtain ⟨m, _, rfl⟩ := List.mem_map.mp he
      rfl
    · rw [List.countP_append]
      have h0 : (msgs.map StreamEvent.status).countP (fun e => isTerminal e) = 0 := by
        rw [List.countP_eq_zero]
        intro a ha
        obtain ⟨m, _, rfl⟩ := List.mem_map.mp ha
        simp [isTerminal]
      rw [h0]
      simp [List.countP_cons, ht]
  rcases hrun : runTry env req with ⟨msgs, res⟩
  cases res with
  | ok d =>
      have hht : handleTurn env req = msgs.map StreamEvent.status ++ [.result d] := by
        rw [handleTurn, hrun]
      rw [hht]
      exact key msgs _ rfl
  | error e =>
      have hht : handleTurn env req = msgs.map StreamEvent.status ++ [.error e] := by
        rw [handleTurn, hrun]
      rw [hht]
      exact key msgs _ rfl

/-! Guided-search budget table. -/

/-- C8. Evaluation of the guided-search budget mapping over the enumerated
options table: the first option `Under 1k` is left at the default range
`[0, 1000000]` because the endpoint compares against the lower-case
`under 1k`, which no enumerated option equals; the remaining six buckets
map as the table says. -/
theorem c8_budget_table :
    "Under 1k" ∈ BUDGET_OPTIONS ∧
    budgetRange "Under 1k" = (0, 1000000) ∧
    guidedFilterMust (some "Under 1k") = some ⟨0, 1000000⟩ ∧
    budgetRange "under 1k" = (0, 1000) ∧
    budgetRange "2k" = (1000, 2000) ∧
    budgetRange "2.5k" = (2000, 2500) ∧
    budgetRange "3k" = (2500, 3000) ∧
    budgetRange "5k" = (3000, 5000) ∧
    budgetRange "6k" = (5000, 6000) ∧
    budgetRange "6k+" = (6000, 1000000) := by
  decide

/-! Client-input validation. -/

/-- C9 counterexample. A chat-turn request with an absent message is not
rejected with a client-error response: the handler streams a single
terminal `error` event (here the NOT NULL violation of the user-message
insert attempted in the existing-session path). -/
theorem c9_counterexample :
    handleTurn okEnv noMessageReq =
      [StreamEvent.error
        "null value in column user_content violates not-null constraint"] := by
  decide

/-- C9 (amended). The feedback endpoint rejects a falsy session id,
product id or rating with a 400 before issuing any insert; the chat
endpoint performs no such validation — an absent message makes the turn
abort with a single streamed `error` event (before any status or provider
call), not a client-error response. -/
theorem c9_input_validation :
    (∀ (db : Except String Unit) (b : FeedbackBody),
      (jsFalsyStr b.sessionId || jsFalsyStr b.productId || jsFalsyNat b.rating) = true →
      feedbackPost db b = (.badRequest, 0)) ∧
    (∀ (env : TurnEnv) (req : ChatRequest), req.message = none →
      ∃ e, handleTurn env req = [StreamEvent.error e]) := by
  constructor
  · intro db b h
    unfold feedbackPost
    rw [if_pos h]
  · intro env req hm
    cases hss : sessionStep env req with
    | error e =>
        refine ⟨e, ?_⟩
        simp [handleTurn, runTry, hss]
    | ok u =>
        have hum : userMessageStep env req =
            .error "null value in column user_content violates not-null constraint" := by
          rw [userMessageStep, hm]
        refine ⟨"null value in column user_content violates not-null constraint", ?_⟩
        simp [handleTurn, runTry, hss, hum]

/-- Closed instance of `c9_input_validation` at a concrete missing rating
and a concrete absent message. -/
theorem c9_input_validation_witness :
    feedbackPost (.ok ()) noRatingFeedback = (.badRequest, 0) ∧
    ∃ e, handleTurn okEnv noMessageReq = [StreamEvent.error e] :=
  ⟨c9_input_validation.1 (.ok ()) noRatingFeedback (by decide),
   c9_input_validation.2 okEnv noMessageReq rfl⟩

end GiftRec
